import Mathlib

/-!
Verification of the Z-Secure biometric image-encryption core.

Shallow embedding of the repository's Python sources:
  * `src/zsecure_encryption.py`  — chaos-based key derivation, PKCS#7 padding,
    AES-256-CBC container encryption/decryption (`ZSecureEncryption`);
  * `src/face_recognition_service.py` — encoding validation and face matching
    (`_is_valid_encoding`, `verify_face`);
  * `src/liveness_detector.py` — blink signal and liveness scoring
    (`detect_blink`, `comprehensive_liveness_check`).

Conventions of the embedding:
  * byte buffers are `List ℕ` (each element intended `< 256`);
  * Python floats are idealized as `ℚ`;
  * external library primitives that the repository only calls
    (AES block permutation, SHA-256, PBKDF2-HMAC, numpy `tobytes`) are
    taken as explicit function parameters, with the properties the
    surrounding code relies on stated as hypotheses;
  * functions whose Python bodies can raise (and whose callers catch the
    exception and return `None`) are modelled with `Option`.
-/

namespace ZS

/-- byte list of an ASCII string literal (UTF-8 bytes of the Python literals). -/
def strBytes (s : String) : List ℕ := s.toList.map Char.toNat

/-! ### PKCS#7 padding — `zsecure_encryption.py` lines 183–192 -/

/-- model of `_pad_data` (lines 183–187): `padding_length = 16 - (len(data) % 16)`,
append `padding_length` copies of the byte `padding_length`. -/
def _pad_data (data : List ℕ) : List ℕ :=
  data ++ List.replicate (16 - data.length % 16) (16 - data.length % 16)

/-- model of `_unpad_data` (lines 189–192): `padding_length = padded_data[-1];
return padded_data[:-padding_length]`.  On an empty buffer `padded_data[-1]`
raises `IndexError` (modelled as `none`); Python's `b[:-n]` is empty for
`n = 0` (the slice `[:0]`) and also truncates to empty when `n > len(b)`,
which `List.take` with truncated subtraction reproduces.  No validation of
the padding byte or of the removed bytes is performed by the source. -/
def _unpad_data (padded : List ℕ) : Option (List ℕ) :=
  match padded.getLast? with
  | none => none
  | some n => some (if n = 0 then [] else padded.take (padded.length - n))

/-! ### 16-byte blocks and CBC chaining

The source encrypts with `cryptography`'s AES-256-CBC
(`Cipher(algorithms.AES(key), modes.CBC(iv))`, lines 108–115 and 163–167).
The library's CBC mode is modelled here over an abstract block permutation:
`E` (resp. `D`) is the AES-256 block encryption (resp. decryption) under the
fixed 32-byte key, passed in as a function on 16-byte blocks. -/

/-- fuel-indexed splitting of a byte buffer into 16-byte blocks (structural, so
that it evaluates in the kernel); fuel is instantiated with the buffer length. -/
def toBlocksAux : ℕ → List ℕ → List (List ℕ)
  | 0, _ => []
  | _, [] => []
  | fuel + 1, l => l.take 16 :: toBlocksAux fuel (l.drop 16)

/-- split a byte buffer into consecutive 16-byte blocks. -/
def toBlocks (l : List ℕ) : List (List ℕ) := toBlocksAux l.length l

/-- bytewise XOR of two equal-length buffers. -/
def xorBytes (a b : List ℕ) : List ℕ := List.zipWith (fun x y => x ^^^ y) a b

/-- CBC encryption: each plaintext block is XORed with the previous ciphertext
block (initially the IV) and then passed through the block permutation `E`. -/
def cbcEncryptBlocks (E : List ℕ → List ℕ) (prev : List ℕ) : List (List ℕ) → List (List ℕ)
  | [] => []
  | b :: bs =>
    let c := E (xorBytes b prev)
    c :: cbcEncryptBlocks E c bs

/-- CBC decryption: each ciphertext block is passed through `D` and XORed with
the previous ciphertext block (initially the IV). -/
def cbcDecryptBlocks (D : List ℕ → List ℕ) (prev : List ℕ) : List (List ℕ) → List (List ℕ)
  | [] => []
  | c :: cs => xorBytes (D c) prev :: cbcDecryptBlocks D c cs

/-! ### Base64 — models `base64.b64encode` / `base64.b64decode`
used for the IV metadata field (lines 122 and 159).  Bit manipulation is
written with division/remainder by powers of two. -/

/-- the standard base64 alphabet, as ASCII codes. -/
def b64table : List ℕ :=
  strBytes ("ABCDEFGHIJKLMNOPQRSTUVWXYZabcdefghijklmnopqrstuvwxyz0123456789+/")

/-- base64 digit value `v < 64` to its ASCII code. -/
def b64chr (v : ℕ) : ℕ := b64table.getD v 0

/-- ASCII code of a base64 digit back to its value. -/
def b64val (c : ℕ) : ℕ := b64table.indexOf c

/-- base64-encode a byte buffer (ASCII `=` is 61). -/
def b64encode : List ℕ → List ℕ
  | [] => []
  | [b1] => [b64chr (b1 / 4), b64chr (b1 % 4 * 16), 61, 61]
  | [b1, b2] => [b64chr (b1 / 4), b64chr (b1 % 4 * 16 + b2 / 16), b64chr (b2 % 16 * 4), 61]
  | b1 :: b2 :: b3 :: rest =>
    b64chr (b1 / 4) :: b64chr (b1 % 4 * 16 + b2 / 16) :: b64chr (b2 % 16 * 4 + b3 / 64)
      :: b64chr (b3 % 64) :: b64encode rest

/-- base64-decode a buffer of ASCII codes, four digits at a time. -/
def b64decode : List ℕ → List ℕ
  | c1 :: c2 :: c3 :: c4 :: rest =>
    if c4 = 61 then
      if c3 = 61 then [b64val c1 * 4 + b64val c2 / 16]
      else [b64val c1 * 4 + b64val c2 / 16, b64val c2 % 16 * 16 + b64val c3 / 4]
    else
      (b64val c1 * 4 + b64val c2 / 16) :: (b64val c2 % 16 * 16 + b64val c3 / 4)
        :: (b64val c3 % 4 * 64 + b64val c4) :: b64decode rest
  | _ => []

/-! ### Container metadata — `zsecure_encryption.py` lines 117–129, 154–159 -/

/-- model of `json.dumps(metadata).encode('utf-8')` for the dict built at
lines 118–123: insertion-ordered keys `encrypted, algorithm, timestamp, iv`,
Python's default separators.  `ts` is the UTF-8 bytes of the timestamp string
and `ivb64` the base64 text of the IV; JSON string escaping is elided (the
round-trip theorems assume the quote byte 34 does not occur in them, which
holds for every base64 text and every `numpy.datetime64` timestamp). -/
def jsonMetaBytes (ts ivb64 : List ℕ) : List ℕ :=
  strBytes ("\x7b\"encrypted\": true, \"algorithm\": \"Z-Secure-v2\", \"timestamp\": \"") ++
    ts ++ strBytes ("\", \"iv\": \"") ++ ivb64 ++ strBytes ("\"\x7d")

/-- model of `json.loads(metadata_bytes)` followed by the `metadata['iv']`
access (lines 156–159): succeeds exactly on buffers shaped like the
serializer's output and returns the bytes of the `iv` field's string. -/
def json_iv (meta : List ℕ) : Option (List ℕ) :=
  let pre := strBytes ("\x7b\"encrypted\": true, \"algorithm\": \"Z-Secure-v2\", \"timestamp\": \"")
  let mid := strBytes ("\", \"iv\": \"")
  if meta.take pre.length = pre then
    let rest := meta.drop pre.length
    let ts := rest.takeWhile (fun c => c ≠ 34)
    let rest2 := rest.drop ts.length
    if rest2.take mid.length = mid then
      let rest3 := rest2.drop mid.length
      let ivs := rest3.takeWhile (fun c => c ≠ 34)
      if rest3.drop ivs.length = strBytes ("\"\x7d") then some ivs else none
    else none
  else none

/-- model of `struct.pack('>I', n)` (line 127): big-endian 4-byte encoding,
faithful for `n < 2 ^ 32` (Python raises `struct.error` beyond that). -/
def pack_be32 (n : ℕ) : List ℕ :=
  [n / 2 ^ 24 % 256, n / 2 ^ 16 % 256, n / 2 ^ 8 % 256, n % 256]

/-- model of `struct.unpack('>I', l)[0]` (line 154) on a 4-byte buffer. -/
def unpack_be32 (l : List ℕ) : ℕ :=
  l.getD 0 0 * 2 ^ 24 + l.getD 1 0 * 2 ^ 16 + l.getD 2 0 * 2 ^ 8 + l.getD 3 0

/-! ### Container encryption / decryption — lines 97–181

File I/O is elided: `encrypt_image` is modelled on the bytes read from
`image_path` and returns the container bytes written to disk; `decrypt_image`
is modelled on the container bytes and returns the plaintext bytes (or `none`
where the Python function catches an exception and returns `None`).  The
random IV (`secrets.token_bytes(16)`, line 105) and the timestamp string
(line 121) are nondeterministic inputs and are therefore parameters. -/

/-- model of `encrypt_image` (lines 97–140): PKCS#7-pad, CBC-encrypt with the
block permutation `E` and IV, serialize metadata, and emit
`b'ZSEC' + metadata_length + metadata_bytes + encrypted_data`. -/
def encrypt_image (E : List ℕ → List ℕ) (iv ts image_data : List ℕ) : List ℕ :=
  let padded_data := _pad_data image_data
  let encrypted_data := (cbcEncryptBlocks E iv (toBlocks padded_data)).flatten
  let metadata_bytes := jsonMetaBytes ts (b64encode iv)
  strBytes ("ZSEC") ++ pack_be32 metadata_bytes.length ++ metadata_bytes ++ encrypted_data

/-- model of `decrypt_image` (lines 142–181): check the `ZSEC` signature, read
the big-endian metadata length, parse the metadata JSON and base64-decode its
`iv` field, CBC-decrypt the remainder with the block permutation `D`, and
strip the padding.  `none` models every exception path the Python code
catches: bad signature (line 151), short buffer (`struct.unpack`), unparsable
metadata (`json.loads`), an IV that is not 16 bytes (the `cryptography` CBC
constructor), a ciphertext that is not a multiple of the 16-byte block size
(`decryptor.finalize`), and an empty buffer reaching `_unpad_data`. -/
def decrypt_image (D : List ℕ → List ℕ) (encrypted_data : List ℕ) : Option (List ℕ) :=
  if encrypted_data.take 4 ≠ strBytes ("ZSEC") then none
  else if encrypted_data.length < 8 then none
  else
    let metadata_length := unpack_be32 ((encrypted_data.drop 4).take 4)
    let metadata_bytes := (encrypted_data.drop 8).take metadata_length
    match json_iv metadata_bytes with
    | none => none
    | some ivb64 =>
      let iv := b64decode ivb64
      let cipher_data := encrypted_data.drop (8 + metadata_length)
      if iv.length ≠ 16 then none
      else if cipher_data.length % 16 ≠ 0 then none
      else
        let padded_data := (cbcDecryptBlocks D iv (toBlocks cipher_data)).flatten
        _unpad_data padded_data

/-! ### Helper lemmas: padding -/

theorem getLast?_replicate_pos (k m : ℕ) (h : 1 ≤ k) :
    (List.replicate k m).getLast? = some m := by
  obtain ⟨k, rfl⟩ := Nat.exists_eq_add_of_le h
  rw [Nat.add_comm, List.replicate_succ' k m, List.getLast?_append]
  simp

theorem unpad_pad (data : List ℕ) : _unpad_data (_pad_data data) = some data := by
  have hk : 1 ≤ 16 - data.length % 16 := by omega
  have hlast : (_pad_data data).getLast? = some (16 - data.length % 16) := by
    rw [_pad_data, List.getLast?_append, getLast?_replicate_pos _ _ hk]
    simp
  rw [_unpad_data, hlast]
  have hk0 : ¬ (16 - data.length % 16 = 0) := by omega
  simp only [hk0, if_false]
  have hlen : (_pad_data data).length = data.length + (16 - data.length % 16) := by
    simp [_pad_data]
  rw [hlen, Nat.add_sub_cancel, _pad_data, List.take_left]

theorem pad_length_mod (data : List ℕ) : (_pad_data data).length % 16 = 0 := by
  simp only [_pad_data, List.length_append, List.length_replicate]
  omega

theorem pad_length_pos (data : List ℕ) : 0 < (_pad_data data).length := by
  simp only [_pad_data, List.length_append, List.length_replicate]
  omega

/-! ### Helper lemmas: blocks -/

theorem toBlocksAux_cons (fuel x : ℕ) (l : List ℕ) :
    toBlocksAux (fuel + 1) (x :: l) = (x :: l).take 16 :: toBlocksAux fuel ((x :: l).drop 16) :=
  rfl

theorem toBlocksAux_flatten (fuel : ℕ) :
    ∀ l : List ℕ, l.length ≤ fuel → (toBlocksAux fuel l).flatten = l := by
  induction fuel with
  | zero =>
    intro l h
    have hl : l = [] := List.length_eq_zero.mp (Nat.le_zero.mp h)
    subst hl
    rfl
  | succ fuel ih =>
    intro l h
    match l with
    | [] => rfl
    | x :: l' =>
      have hdrop : ((x :: l').drop 16).length ≤ fuel := by
        rw [List.length_drop]
        simp only [List.length_cons] at h ⊢
        omega
      rw [toBlocksAux_cons, List.flatten_cons, ih _ hdrop, List.take_append_drop]

theorem toBlocks_flatten (l : List ℕ) : (toBlocks l).flatten = l :=
  toBlocksAux_flatten l.length l le_rfl

theorem toBlocksAux_mem_length (fuel : ℕ) :
    ∀ l : List ℕ, l.length % 16 = 0 → ∀ b ∈ toBlocksAux fuel l, b.length = 16 := by
  induction fuel with
  | zero => intro l _ b hb; simp [toBlocksAux] at hb
  | succ fuel ih =>
    intro l hl b hb
    match l with
    | [] => simp [toBlocksAux] at hb
    | x :: l' =>
      rw [toBlocksAux_cons] at hb
      have hge : 16 ≤ (x :: l').length := by
        rcases Nat.lt_or_ge (x :: l').length 16 with h16 | h16
        · exfalso
          have := Nat.mod_eq_of_lt h16
          simp only [List.length_cons] at *
          omega
        · exact h16
      rcases List.mem_cons.mp hb with h | h
      · subst h
        rw [List.length_take]
        omega
      · refine ih _ ?_ b h
        rw [List.length_drop]
        omega

theorem toBlocks_mem_length (l : List ℕ) (hl : l.length % 16 = 0) :
    ∀ b ∈ toBlocks l, b.length = 16 :=
  toBlocksAux_mem_length l.length l hl

theorem toBlocksAux_of_blocks (bs : List (List ℕ)) (h16 : ∀ b ∈ bs, b.length = 16) :
    ∀ fuel, bs.flatten.length ≤ fuel → toBlocksAux fuel bs.flatten = bs := by
  induction bs with
  | nil => intro fuel _; cases fuel <;> rfl
  | cons b bs ih =>
    intro fuel hfuel
    have hb : b.length = 16 := h16 b (by simp)
    rw [List.flatten_cons] at hfuel ⊢
    match b, hb with
    | x :: b', hb =>
      rw [List.length_append] at hfuel
      match fuel with
      | 0 => omega
      | fuel + 1 =>
        have hcons : (x :: b') ++ bs.flatten = x :: (b' ++ bs.flatten) := rfl
        rw [hcons, toBlocksAux_cons, ← hcons, ← hb, List.take_left, List.drop_left]
        rw [ih (fun c hc => h16 c (by simp [hc])) fuel (by omega)]

theorem toBlocks_of_blocks (bs : List (List ℕ)) (h16 : ∀ b ∈ bs, b.length = 16) :
    toBlocks bs.flatten = bs :=
  toBlocksAux_of_blocks bs h16 _ le_rfl

theorem flatten_length_of_blocks (bs : List (List ℕ)) (h16 : ∀ b ∈ bs, b.length = 16) :
    bs.flatten.length = 16 * bs.length := by
  induction bs with
  | nil => rfl
  | cons b bs ih =>
    rw [List.flatten_cons, List.length_append, h16 b (by simp),
      ih (fun c hc => h16 c (by simp [hc]))]
    simp
    ring

/-! ### Helper lemmas: XOR and CBC -/

theorem xorBytes_length (a b : List ℕ) : (xorBytes a b).length = min a.length b.length := by
  simp [xorBytes]

theorem xorBytes_xorBytes_cancel :
    ∀ a b : List ℕ, a.length = b.length → xorBytes (xorBytes a b) b = a := by
  intro a
  induction a with
  | nil => intro b _; rfl
  | cons x a ih =>
    intro b hb
    match b with
    | y :: b' =>
      simp only [xorBytes, List.zipWith_cons_cons] at *
      rw [Nat.xor_cancel_right]
      simp only [List.cons.injEq]
      exact ⟨trivial, ih b' (by simpa using hb)⟩

theorem cbcEncryptBlocks_mem_length (E : List ℕ → List ℕ)
    (hE : ∀ b : List ℕ, b.length = 16 → (E b).length = 16) :
    ∀ (bs : List (List ℕ)) (prev : List ℕ), prev.length = 16 →
      (∀ b ∈ bs, b.length = 16) → ∀ c ∈ cbcEncryptBlocks E prev bs, c.length = 16 := by
  intro bs
  induction bs with
  | nil => intro prev _ _ c hc; simp [cbcEncryptBlocks] at hc
  | cons b bs ih =>
    intro prev hprev hbs c hc
    have hxl : (xorBytes b prev).length = 16 := by
      rw [xorBytes_length, hprev, hbs b (by simp)]
      simp
    have hEl : (E (xorBytes b prev)).length = 16 := hE _ hxl
    rw [cbcEncryptBlocks] at hc
    rcases List.mem_cons.mp hc with h | h
    · rw [h]; exact hEl
    · exact ih _ hEl (fun d hd => hbs d (by simp [hd])) c h

theorem cbc_roundtrip (E D : List ℕ → List ℕ)
    (hDE : ∀ b : List ℕ, D (E b) = b)
    (hE : ∀ b : List ℕ, b.length = 16 → (E b).length = 16) :
    ∀ (bs : List (List ℕ)) (prev : List ℕ), prev.length = 16 →
      (∀ b ∈ bs, b.length = 16) →
      cbcDecryptBlocks D prev (cbcEncryptBlocks E prev bs) = bs := by
  intro bs
  induction bs with
  | nil => intro prev _ _; rfl
  | cons b bs ih =>
    intro prev hprev hbs
    have hb : b.length = 16 := hbs b (by simp)
    have hxl : (xorBytes b prev).length = 16 := by
      rw [xorBytes_length, hprev, hb]; simp
    rw [cbcEncryptBlocks, cbcDecryptBlocks, hDE,
      xorBytes_xorBytes_cancel b prev (by rw [hb, hprev]),
      ih _ (hE _ hxl) (fun d hd => hbs d (by simp [hd]))]

/-! ### Helper lemmas: big-endian length field -/

theorem unpack_pack_be32 (n : ℕ) (h : n < 2 ^ 32) : unpack_be32 (pack_be32 n) = n := by
  simp only [pack_be32, unpack_be32, List.getD]
  simp
  omega

/-! ### Helper lemmas: base64 -/

theorem b64table_length : b64table.length = 64 := by decide

theorem b64val_b64chr : ∀ v < 64, b64val (b64chr v) = v := by decide

theorem b64chr_lt : ∀ v < 64, b64chr v < 64 + 64 := by decide

theorem b64chr_ne_61 (v : ℕ) : b64chr v ≠ 61 := by
  rcases Nat.lt_or_ge v 64 with h | h
  · revert h; revert v; decide
  · rw [b64chr, List.getD_eq_default]
    · decide
    · rw [b64table_length]; omega

theorem b64chr_ne_34 (v : ℕ) : b64chr v ≠ 34 := by
  rcases Nat.lt_or_ge v 64 with h | h
  · revert h; revert v; decide
  · rw [b64chr, List.getD_eq_default]
    · decide
    · rw [b64table_length]; omega

theorem b64encode_ne_34 (l : List ℕ) : ∀ c ∈ b64encode l, c ≠ 34 := by
  induction l using b64encode.induct with
  | case1 => simp [b64encode]
  | case2 b1 =>
    simp only [b64encode, List.mem_cons, List.not_mem_nil, or_false]
    rintro c (rfl | rfl | rfl | rfl) <;> first | exact b64chr_ne_34 _ | decide
  | case3 b1 b2 =>
    simp only [b64encode, List.mem_cons, List.not_mem_nil, or_false]
    rintro c (rfl | rfl | rfl | rfl) <;> first | exact b64chr_ne_34 _ | decide
  | case4 b1 b2 b3 rest ih =>
    simp only [b64encode, List.mem_cons]
    rintro c (rfl | rfl | rfl | rfl | hm) <;>
      first | exact b64chr_ne_34 _ | exact ih c hm

theorem b64decode_b64encode (l : List ℕ) (h : ∀ x ∈ l, x < 256) :
    b64decode (b64encode l) = l := by
  induction l using b64encode.induct with
  | case1 => rfl
  | case2 b1 =>
    have hb1 : b1 < 256 := h b1 (by simp)
    rw [b64encode, b64decode]
    rw [if_pos rfl, if_pos rfl,
      b64val_b64chr _ (by omega), b64val_b64chr _ (by omega)]
    simp only [List.cons.injEq, and_true]
    omega
  | case3 b1 b2 =>
    have hb1 : b1 < 256 := h b1 (by simp)
    have hb2 : b2 < 256 := h b2 (by simp)
    rw [b64encode, b64decode]
    rw [if_pos rfl, if_neg (b64chr_ne_61 _),
      b64val_b64chr _ (by omega), b64val_b64chr _ (by omega), b64val_b64chr _ (by omega)]
    simp only [List.cons.injEq, and_true]
    omega
  | case4 b1 b2 b3 rest ih =>
    have hb1 : b1 < 256 := h b1 (by simp)
    have hb2 : b2 < 256 := h b2 (by simp)
    have hb3 : b3 < 256 := h b3 (by simp)
    rw [b64encode, b64decode]
    rw [if_neg (b64chr_ne_61 _),
      b64val_b64chr _ (by omega), b64val_b64chr _ (by omega),
      b64val_b64chr _ (by omega), b64val_b64chr _ (by omega),
      ih (fun x hx => h x (by simp [hx]))]
    simp only [List.cons.injEq, and_true]
    omega

/-! ### Helper lemmas: metadata serialization round-trip -/

theorem takeWhile_append_cons (p : ℕ → Bool) (l : List ℕ) (c : ℕ) (r : List ℕ)
    (h : ∀ x ∈ l, p x = true) (hc : p c = false) :
    (l ++ c :: r).takeWhile p = l := by
  induction l with
  | nil => simp [List.takeWhile_cons, hc]
  | cons x l ih =>
    rw [List.cons_append, List.takeWhile_cons, h x (by simp)]
    rw [ih (fun y hy => h y (by simp [hy]))]
    simp

theorem json_iv_jsonMetaBytes (ts ivb64 : List ℕ)
    (hts : ∀ c ∈ ts, c ≠ 34) (hiv : ∀ c ∈ ivb64, c ≠ 34) :
    json_iv (jsonMetaBytes ts ivb64) = some ivb64 := by
  rw [jsonMetaBytes, json_iv]
  simp only [List.append_assoc]
  rw [List.take_left, if_pos rfl, List.drop_left]
  have h1 : (ts ++ (strBytes ("\", \"iv\": \"") ++ (ivb64 ++ strBytes ("\"\x7d")))).takeWhile
      (fun c => decide (c ≠ 34)) = ts := by
    have hsplit : strBytes ("\", \"iv\": \"") ++ (ivb64 ++ strBytes ("\"\x7d")) =
        34 :: (strBytes (", \"iv\": \"") ++ (ivb64 ++ strBytes ("\"\x7d"))) := rfl
    rw [hsplit]
    exact takeWhile_append_cons _ _ _ _ (fun x hx => by simpa using hts x hx) (by simp)
  rw [h1, List.drop_left, List.take_left, if_pos rfl, List.drop_left]
  have h2 : (ivb64 ++ strBytes ("\"\x7d")).takeWhile (fun c => decide (c ≠ 34)) = ivb64 := by
    have hsplit : (strBytes ("\"\x7d") : List ℕ) = 34 :: [125] := rfl
    rw [hsplit]
    exact takeWhile_append_cons _ _ _ _ (fun x hx => by simpa using hiv x hx) (by simp)
  rw [h2, List.drop_left, if_pos rfl]

/-! ### Helper lemmas: container parsing -/

theorem decrypt_image_container (D : List ℕ → List ℕ) (mlen : ℕ) (meta ct : List ℕ)
    (hm : mlen = meta.length) (hlt : mlen < 2 ^ 32) :
    decrypt_image D (strBytes ("ZSEC") ++ pack_be32 mlen ++ meta ++ ct) =
      match json_iv meta with
      | none => none
      | some ivb64 =>
        if (b64decode ivb64).length ≠ 16 then none
        else if ct.length % 16 ≠ 0 then none
        else _unpad_data ((cbcDecryptBlocks D (b64decode ivb64) (toBlocks ct)).flatten) := by
  have hsig : (strBytes ("ZSEC") : List ℕ).length = 4 := rfl
  have hpack : (pack_be32 mlen).length = 4 := rfl
  have h4 : (strBytes ("ZSEC") ++ pack_be32 mlen ++ meta ++ ct).take 4 = strBytes ("ZSEC") := by
    simp only [List.append_assoc]
    exact List.take_left' hsig
  have hlen8 : ¬ (strBytes ("ZSEC") ++ pack_be32 mlen ++ meta ++ ct).length < 8 := by
    simp only [List.length_append, hsig, hpack]
    omega
  have hdrop4 : (strBytes ("ZSEC") ++ pack_be32 mlen ++ meta ++ ct).drop 4 =
      pack_be32 mlen ++ (meta ++ ct) := by
    simp only [List.append_assoc]
    exact List.drop_left' hsig
  have hml : unpack_be32 (((strBytes ("ZSEC") ++ pack_be32 mlen ++ meta ++ ct).drop 4).take 4) =
      mlen := by
    rw [hdrop4, List.take_left' hpack, unpack_pack_be32 mlen hlt]
  have hdrop8 : (strBytes ("ZSEC") ++ pack_be32 mlen ++ meta ++ ct).drop 8 = meta ++ ct := by
    have : strBytes ("ZSEC") ++ pack_be32 mlen ++ meta ++ ct =
        (strBytes ("ZSEC") ++ pack_be32 mlen) ++ (meta ++ ct) := by
      simp only [List.append_assoc]
    rw [this]
    exact List.drop_left' (by rw [List.length_append, hsig, hpack])
  have hmeta : ((strBytes ("ZSEC") ++ pack_be32 mlen ++ meta ++ ct).drop 8).take mlen = meta := by
    rw [hdrop8, hm, List.take_left]
  have hcipher : (strBytes ("ZSEC") ++ pack_be32 mlen ++ meta ++ ct).drop (8 + mlen) = ct := by
    have : strBytes ("ZSEC") ++ pack_be32 mlen ++ meta ++ ct =
        (strBytes ("ZSEC") ++ pack_be32 mlen ++ meta) ++ ct := by
      simp only [List.append_assoc]
    rw [this]
    exact List.drop_left' (by simp only [List.length_append, hsig, hpack]; omega)
  rw [decrypt_image, if_neg (not_not_intro h4), if_neg hlen8]
  simp only [hml, hmeta, hcipher]

/-- round-trip of container building and parsing, decrypted with the inverse
block permutation: the core of claim C1, stated over the abstract cipher. -/
theorem decrypt_encrypt_roundtrip (E D : List ℕ → List ℕ)
    (hDE : ∀ b : List ℕ, D (E b) = b)
    (hE : ∀ b : List ℕ, b.length = 16 → (E b).length = 16)
    (iv ts p : List ℕ) (hiv : iv.length = 16) (hivB : ∀ x ∈ iv, x < 256)
    (hts : ∀ c ∈ ts, c ≠ 34)
    (hmlen : (jsonMetaBytes ts (b64encode iv)).length < 2 ^ 32) :
    decrypt_image D (encrypt_image E iv ts p) = some p := by
  have hpadblocks : ∀ b ∈ toBlocks (_pad_data p), b.length = 16 :=
    toBlocks_mem_length _ (pad_length_mod p)
  have hctblocks : ∀ c ∈ cbcEncryptBlocks E iv (toBlocks (_pad_data p)), c.length = 16 :=
    cbcEncryptBlocks_mem_length E hE _ iv hiv hpadblocks
  have hctlen : (cbcEncryptBlocks E iv (toBlocks (_pad_data p))).flatten.length % 16 = 0 := by
    rw [flatten_length_of_blocks _ hctblocks]
    omega
  have henc : encrypt_image E iv ts p =
      strBytes ("ZSEC") ++ pack_be32 (jsonMetaBytes ts (b64encode iv)).length ++
        jsonMetaBytes ts (b64encode iv) ++
        (cbcEncryptBlocks E iv (toBlocks (_pad_data p))).flatten := rfl
  rw [henc, decrypt_image_container D _ _ _ rfl hmlen,
    json_iv_jsonMetaBytes ts (b64encode iv) hts (b64encode_ne_34 iv)]
  simp only [b64decode_b64encode iv hivB]
  rw [if_neg (not_not_intro hiv), if_neg (not_not_intro hctlen),
    toBlocks_of_blocks _ hctblocks,
    cbc_roundtrip E D hDE hE _ iv hiv hpadblocks,
    toBlocks_flatten, unpad_pad]

/-! ### Face encoding validation and matching — `face_recognition_service.py`

Python floats are idealized as `ℚ`.  `face_recognition.face_distance` is the
Euclidean norm of the difference vector; since every use in `verify_face`
compares the (nonnegative) distance against a nonnegative threshold, the
embedding carries the squared distance and compares it against squared
thresholds, which is equivalent (the tolerance configured in `__init__` is
`0.4 > 0`; the claim theorems assume `0 ≤ tolerance`). -/

/-- squared Euclidean distance between two encodings (model of
`face_recognition.face_distance`, squared). -/
def face_distance_sq (a b : List ℚ) : ℚ :=
  (List.zipWith (fun x y => (x - y) ^ 2) a b).sum

/-- model of `np.var`: population variance, mean of squared deviations. -/
def np_var (e : List ℚ) : ℚ :=
  ((e.map (fun x => (x - e.sum / e.length) ^ 2)).sum) / e.length

/-- model of `_is_valid_encoding` (`face_recognition_service.py` lines 268–294):
shape `(128,)`, not all zeros, not all ones, variance at least `0.001`,
no element of magnitude above `5.0`. -/
def _is_valid_encoding (e : List ℚ) : Bool :=
  decide (e.length = 128) &&
    !(e.all (fun x => x == 0)) &&
    !(e.all (fun x => x == 1)) &&
    !(np_var e < 1 / 1000) &&
    !(e.any (fun x => decide (|x| > 5)))

/-- model of the decision logic of `verify_face` (lines 168–194) given the two
encodings, over the squared distance: reject when the distance is below `0.1`
(potential spoofing), reject when either encoding is invalid, otherwise match
iff the distance is within `tolerance` (the `compare_faces` result) and also
within `0.8 * tolerance` (the additional check at line 189). -/
def verify_face (stored current : List ℚ) (tolerance : ℚ) : Bool :=
  let distance_sq := face_distance_sq stored current
  if distance_sq < (1 / 10) ^ 2 then false
  else if !(_is_valid_encoding stored) || !(_is_valid_encoding current) then false
  else
    let result := decide (distance_sq ≤ tolerance ^ 2)
    if result && decide (distance_sq > (tolerance * (8 / 10)) ^ 2) then false
    else result

/-! ### Liveness detection — `liveness_detector.py` -/

/-- result dict of `detect_blink` (lines 76–110). -/
structure BlinkData where
  blink_detected : Bool
  left_ear : ℚ
  right_ear : ℚ
  avg_ear : ℚ
deriving Repr, DecidableEq

/-- model of `detect_blink`: with a detected face the two eye-aspect-ratios are
averaged and compared against `blink_threshold = 0.2`; with no face the
defaults (`False`, zeros) are returned.  The EAR values themselves come from
the MediaPipe landmarks and are inputs here. -/
def detect_blink (face_detected : Bool) (left_ear right_ear : ℚ) : BlinkData :=
  if face_detected then
    { blink_detected := decide ((left_ear + right_ear) / 2 < 1 / 5)
      left_ear := left_ear
      right_ear := right_ear
      avg_ear := (left_ear + right_ear) / 2 }
  else
    { blink_detected := false, left_ear := 0, right_ear := 0, avg_ear := 0 }

/-- result of `comprehensive_liveness_check` (lines 284–311), the fields the
claims are about. -/
structure LivenessReport where
  liveness_passed : Bool
  liveness_score : ℚ
  checks_passed : ℕ
  total_checks : ℕ
deriving Repr, DecidableEq

/-- the blink signal as evaluated inside `comprehensive_liveness_check`
(line 290): `blink_result['blink_detected'] or blink_result['avg_ear'] > 0.15`. -/
def blink_signal (blink : BlinkData) : Bool :=
  blink.blink_detected || decide (blink.avg_ear > 3 / 20)

/-- model of the scoring part of `comprehensive_liveness_check` (lines 284–311)
over the four signal results: each passing signal adds `0.25` to the score and
`1` to `checks_passed`; `liveness_passed = checks_passed >= 2 or
liveness_score >= 0.5`. -/
def comprehensive_liveness_check (blink : BlinkData)
    (movement_detected is_real quality_sufficient brightness_ok : Bool) : LivenessReport :=
  let quality_pass := quality_sufficient && brightness_ok
  let liveness_score : ℚ :=
    (if blink_signal blink then 1 / 4 else 0) + (if movement_detected then 1 / 4 else 0) +
      (if is_real then 1 / 4 else 0) + (if quality_pass then 1 / 4 else 0)
  let checks_passed : ℕ :=
    (if blink_signal blink then 1 else 0) + (if movement_detected then 1 else 0) +
      (if is_real then 1 else 0) + (if quality_pass then 1 else 0)
  { liveness_passed := decide (checks_passed ≥ 2) || decide (liveness_score ≥ 1 / 2)
    liveness_score := liveness_score
    checks_passed := checks_passed
    total_checks := 4 }

/-! ### Chaos-based key derivation — `zsecure_encryption.py` lines 24–95

SHA-256 and PBKDF2-HMAC-SHA256 (fixed at 100,000 iterations and 32-byte
output by the source) are library primitives and appear as the function
parameters `sha256` and `pbkdf2_sha256`; `numpy`'s `tobytes` serialization of
the float64 encoding vector appears as the parameter `tobytes`.  The Lorenz
iteration itself (floats in the source) is idealized over `ℚ`. -/

/-- sum of every third byte of `data` starting at offset `off`
(`sum(data[off::3])`). -/
def strideSum (data : List ℕ) (off : ℕ) : ℕ :=
  ((data.enum.filter (fun q => q.1 % 3 == off)).map (fun q => q.2)).sum

/-- one step of the discretized Lorenz system (lines 70–78):
`sigma = 10`, `rho = 28`, `beta = 8/3`, `dt = 0.01`. -/
def lorenzStep (s : ℚ × ℚ × ℚ) : ℚ × ℚ × ℚ :=
  let dx := 10 * (s.2.1 - s.1)
  let dy := s.1 * (28 - s.2.2) - s.2.1
  let dz := s.1 * s.2.1 - 8 / 3 * s.2.2
  (s.1 + dx * (1 / 100), s.2.1 + dy * (1 / 100), s.2.2 + dz * (1 / 100))

/-- the byte emitted after each Lorenz step (line 81):
`int((abs(x) * abs(y) * abs(z)) * 1000000) % 256` (truncation of a
nonnegative value is its floor). -/
def chaos_byte (s : ℚ × ℚ × ℚ) : ℕ :=
  (Int.toNat ⌊|s.1| * |s.2.1| * |s.2.2| * 1000000⌋) % 256

/-- the chaos byte sequence: `n` Lorenz steps from state `s`, emitting one
byte after each update (lines 70–82). -/
def chaosSeq : ℕ → ℚ × ℚ × ℚ → List ℕ
  | 0, _ => []
  | n + 1, s =>
    let s' := lorenzStep s
    chaos_byte s' :: chaosSeq n s'

/-- model of `_apply_chaos_algorithm` (lines 54–95): seed `x, y, z` from the
three byte strides of `data`, run `chaos_iterations = 1000` Lorenz steps,
XOR `data` cyclically against the emitted sequence, and hash the result. -/
def _apply_chaos_algorithm (sha256 : List ℕ → List ℕ) (data : List ℕ) : List ℕ :=
  let x := ((strideSum data 0 % 1000 : ℕ) : ℚ) / 1000
  let y := ((strideSum data 1 % 1000 : ℕ) : ℚ) / 1000
  let z := ((strideSum data 2 % 1000 : ℕ) : ℚ) / 1000
  let chaos_sequence := chaosSeq 1000 (x, y, z)
  let result := data.enum.map (fun q => q.2 ^^^ chaos_sequence.getD (q.1 % chaos_sequence.length) 0)
  sha256 result

/-- model of `generate_key_from_biometrics` (lines 24–52): serialize the
encoding, append the identity bytes, apply the chaos algorithm, then PBKDF2
with salt `sha256(email)[:16]`.  The body performs no validation of the
encoding or the email; the `except` branch (returning `None`) is unreachable
for list inputs, so the result is always `some` key. -/
def generate_key_from_biometrics (tobytes : List ℚ → List ℕ)
    (sha256 : List ℕ → List ℕ) (pbkdf2_sha256 : List ℕ → List ℕ → List ℕ)
    (face_encoding : List ℚ) (email : List ℕ) : Option (List ℕ) :=
  let face_bytes := tobytes face_encoding
  let combined_data := face_bytes ++ email
  let chaos_key := _apply_chaos_algorithm sha256 combined_data
  let salt := (sha256 email).take 16
  some (pbkdf2_sha256 chaos_key salt)

/-! ### Further CBC helpers -/

theorem cbcEncryptBlocks_count (E : List ℕ → List ℕ) :
    ∀ (bs : List (List ℕ)) (prev : List ℕ), (cbcEncryptBlocks E prev bs).length = bs.length := by
  intro bs
  induction bs with
  | nil => intro prev; rfl
  | cons b bs ih =>
    intro prev
    rw [cbcEncryptBlocks]
    simp only [List.length_cons, ih]

theorem cbcDecryptBlocks_mem_length (D : List ℕ → List ℕ)
    (hD : ∀ b : List ℕ, b.length = 16 → (D b).length = 16) :
    ∀ (cs : List (List ℕ)) (prev : List ℕ), prev.length = 16 →
      (∀ c ∈ cs, c.length = 16) → ∀ b ∈ cbcDecryptBlocks D prev cs, b.length = 16 := by
  intro cs
  induction cs with
  | nil => intro prev _ _ b hb; simp [cbcDecryptBlocks] at hb
  | cons c cs ih =>
    intro prev hprev hcs b hb
    have hc : c.length = 16 := hcs c (by simp)
    rw [cbcDecryptBlocks] at hb
    rcases List.mem_cons.mp hb with h | h
    · rw [h, xorBytes_length, hD c hc, hprev]
      simp
    · exact ih c hc (fun d hd => hcs d (by simp [hd])) b h

theorem toBlocks_ne_nil (l : List ℕ) (hl : l ≠ []) : toBlocks l ≠ [] := by
  match l, hl with
  | x :: l', _ =>
    rw [toBlocks, List.length_cons, toBlocksAux_cons]
    simp

/-! ### Claim theorems -/

/-- C1 — Round-trip: for every plaintext byte buffer and every key (modelled
by an inverse pair of 16-byte block permutations), decrypting the container
produced by encryption returns exactly the original plaintext: PKCS#7
padding to a multiple of 16, CBC encryption, container framing, and the
reverse all cancel. -/
theorem C1_encrypt_decrypt_round_trip (E D : List ℕ → List ℕ)
    (hDE : ∀ b : List ℕ, D (E b) = b)
    (hE16 : ∀ b : List ℕ, b.length = 16 → (E b).length = 16)
    (iv ts p : List ℕ) (hiv : iv.length = 16) (hivB : ∀ x ∈ iv, x < 256)
    (hts : ∀ c ∈ ts, c ≠ 34)
    (hmlen : (jsonMetaBytes ts (b64encode iv)).length < 2 ^ 32) :
    decrypt_image D (encrypt_image E iv ts p) = some p :=
  decrypt_encrypt_roundtrip E D hDE hE16 iv ts p hiv hivB hts hmlen

/-- C1 witness: the round-trip evaluated at a concrete plaintext, IV,
timestamp and the identity block permutation. -/
theorem C1_witness :
    decrypt_image (fun b => b)
      (encrypt_image (fun b => b) (List.replicate 16 0) (strBytes ("2025")) [1, 2, 3]) =
      some [1, 2, 3] :=
  C1_encrypt_decrypt_round_trip (fun b => b) (fun b => b) (fun _ => rfl) (fun _ h => h)
    (List.replicate 16 0) (strBytes ("2025")) [1, 2, 3]
    (by decide) (by decide) (by decide) (by decide)

/-- C10 — the padding-removal step never fails on a non-empty buffer: it
returns the first `len - n` bytes where `n` is the last byte (the empty
buffer when `n = 0`, and also when `n` exceeds the length, by slice
truncation); no check on `n` or on the removed bytes is performed. -/
theorem C10_unpad_no_validation (b : List ℕ) (n : ℕ) (hb : b.getLast? = some n) :
    _unpad_data b = some (if n = 0 then [] else b.take (b.length - n)) := by
  rw [_unpad_data, hb]

/-- C10 witness: a concrete buffer whose last byte is 2. -/
theorem C10_witness :
    _unpad_data [5, 6, 2] = some (if 2 = 0 then [] else [5, 6, 2].take ([5, 6, 2].length - 2)) :=
  C10_unpad_no_validation [5, 6, 2] 2 (by decide)

/-- metadata bytes of the concrete container used to refute the padding
validation claimed in C2. -/
def c2_meta : List ℕ := jsonMetaBytes (strBytes ("2025")) (b64encode (List.replicate 16 0))

/-- a single ciphertext block which, decrypted with the identity block
permutation and the all-zero IV, yields a block whose pad-length byte is 17. -/
def c2_ct : List ℕ := List.replicate 15 0 ++ [17]

/-- a well-formed container carrying `c2_ct`. -/
def c2_container : List ℕ := strBytes ("ZSEC") ++ pack_be32 c2_meta.length ++ c2_meta ++ c2_ct

/-- C2 counterexample: a container with a valid signature whose decryption
produces the pad-length byte 17, outside `[1, 16]` — yet `decrypt_image`
succeeds (returning the silently truncated buffer) instead of failing with a
padding error as the claim requires. -/
theorem C2_counterexample :
    c2_container.take 4 = strBytes ("ZSEC") ∧
    ((cbcDecryptBlocks (fun b => b) (List.replicate 16 0) (toBlocks c2_ct)).flatten.getLast?
      = some 17) ∧
    decrypt_image (fun b => b) c2_container = some [] := by decide

/-- C2 (amended) — the two format failures do hold: a container whose first 4
bytes are not `ZSEC` is rejected, and a well-formed frame whose metadata does
not parse is rejected; but padding is never validated: for every well-formed
container whose ciphertext is a non-empty multiple of 16 bytes, decryption
returns a result (`isSome`) no matter what the decrypted padding bytes are. -/
theorem C2_decrypt_failure_modes (D : List ℕ → List ℕ) (data : List ℕ) :
    (data.take 4 ≠ strBytes ("ZSEC") → decrypt_image D data = none) ∧
    (∀ meta ct : List ℕ, meta.length < 2 ^ 32 → json_iv meta = none →
      data = strBytes ("ZSEC") ++ pack_be32 meta.length ++ meta ++ ct →
      decrypt_image D data = none) ∧
    ((∀ b : List ℕ, b.length = 16 → (D b).length = 16) →
      ∀ meta ct ivb64 : List ℕ, meta.length < 2 ^ 32 →
      json_iv meta = some ivb64 → (b64decode ivb64).length = 16 →
      ct.length % 16 = 0 → ct ≠ [] →
      data = strBytes ("ZSEC") ++ pack_be32 meta.length ++ meta ++ ct →
      (decrypt_image D data).isSome = true) := by
  refine ⟨?_, ?_, ?_⟩
  · intro h
    rw [decrypt_image, if_pos h]
  · intro meta ct hlt hparse hdata
    rw [hdata, decrypt_image_container D _ _ _ rfl hlt, hparse]
  · intro hD meta ct ivb64 hlt hparse hivlen hct hctne hdata
    rw [hdata, decrypt_image_container D _ _ _ rfl hlt, hparse]
    simp only [hivlen]
    rw [if_neg (by omega), if_neg (not_not_intro hct)]
    have hblocks : ∀ c ∈ toBlocks ct, c.length = 16 := toBlocks_mem_length ct hct
    have hdec : ∀ b ∈ cbcDecryptBlocks D (b64decode ivb64) (toBlocks ct), b.length = 16 :=
      cbcDecryptBlocks_mem_length D hD (toBlocks ct) _ hivlen hblocks
    have hcount : (cbcDecryptBlocks D (b64decode ivb64) (toBlocks ct)).length
        = (toBlocks ct).length := by
      clear hdec hblocks
      generalize b64decode ivb64 = prev
      induction (toBlocks ct) generalizing prev with
      | nil => rfl
      | cons c cs ih => rw [cbcDecryptBlocks]; simp only [List.length_cons, ih]
    have hne : (cbcDecryptBlocks D (b64decode ivb64) (toBlocks ct)).flatten ≠ [] := by
      have h1 : (toBlocks ct) ≠ [] := toBlocks_ne_nil ct hctne
      have h2 : (cbcDecryptBlocks D (b64decode ivb64) (toBlocks ct)).flatten.length
          = 16 * (toBlocks ct).length := by
        rw [flatten_length_of_blocks _ hdec, hcount]
      intro hnil
      rw [hnil] at h2
      simp only [List.length_nil] at h2
      have : (toBlocks ct).length ≠ 0 := fun h0 => h1 (List.length_eq_zero.mp h0)
      omega
    obtain ⟨n, hn⟩ := Option.isSome_iff_exists.mp
      ((List.getLast?_isSome).mpr hne)
    rw [_unpad_data, hn]
    rfl

/-- C2 witness: the amended theorem applied to a concrete buffer with a bad
signature. -/
theorem C2_witness : decrypt_image (fun b => b) [9, 9, 9, 9] = none :=
  (C2_decrypt_failure_modes (fun b => b) [9, 9, 9, 9]).1 (by decide)

/-- C5 counterexample: the metadata emitted by a concrete encryption opens
with a fourth JSON field `"encrypted": true` before `"algorithm"` — the
metadata fields are not exactly `algorithm`, `timestamp`, `iv` as claimed. -/
theorem C5_counterexample :
    ((encrypt_image (fun b => b) (List.replicate 16 0) (strBytes ("2025")) [0]).drop 8).take 20 =
      strBytes ("\x7b\"encrypted\": true, ") := by decide

/-- C5 (amended) — Container layout: encryption emits exactly the signature
`ZSEC`, the big-endian uint32 length of the metadata bytes, the metadata JSON
(whose fields are `encrypted: true`, `algorithm: "Z-Secure-v2"`, the
timestamp string, and the base64 of the 16 raw IV bytes, in that order),
followed by the CBC ciphertext, whose length is a multiple of 16; a 10-byte
plaintext yields a 16-byte ciphertext. -/
theorem C5_container_layout (E : List ℕ → List ℕ)
    (hE16 : ∀ b : List ℕ, b.length = 16 → (E b).length = 16)
    (iv ts p : List ℕ) (hiv : iv.length = 16) (hivB : ∀ x ∈ iv, x < 256) :
    encrypt_image E iv ts p =
      strBytes ("ZSEC") ++ pack_be32 (jsonMetaBytes ts (b64encode iv)).length ++
        jsonMetaBytes ts (b64encode iv) ++
        (cbcEncryptBlocks E iv (toBlocks (_pad_data p))).flatten ∧
    (cbcEncryptBlocks E iv (toBlocks (_pad_data p))).flatten.length % 16 = 0 ∧
    b64decode (b64encode iv) = iv ∧
    (p.length = 10 → (cbcEncryptBlocks E iv (toBlocks (_pad_data p))).flatten.length = 16) := by
  have hpadblocks : ∀ b ∈ toBlocks (_pad_data p), b.length = 16 :=
    toBlocks_mem_length _ (pad_length_mod p)
  have hctblocks : ∀ c ∈ cbcEncryptBlocks E iv (toBlocks (_pad_data p)), c.length = 16 :=
    cbcEncryptBlocks_mem_length E hE16 _ iv hiv hpadblocks
  have hflatten : (cbcEncryptBlocks E iv (toBlocks (_pad_data p))).flatten.length
      = 16 * (toBlocks (_pad_data p)).length := by
    rw [flatten_length_of_blocks _ hctblocks, cbcEncryptBlocks_count]
  refine ⟨rfl, by rw [hflatten]; omega, b64decode_b64encode iv hivB, ?_⟩
  intro hp
  have hpadlen : (_pad_data p).length = 16 := by
    simp only [_pad_data, List.length_append, List.length_replicate, hp]
  have hcount : 16 * (toBlocks (_pad_data p)).length = 16 := by
    rw [← flatten_length_of_blocks _ hpadblocks, toBlocks_flatten, hpadlen]
  rw [hflatten]
  omega

/-- C5 witness: the layout theorem applied at a concrete IV, timestamp and a
10-byte plaintext under the identity block permutation. -/
theorem C5_witness :
    encrypt_image (fun b => b) (List.replicate 16 0) (strBytes ("2025"))
        (List.replicate 10 7) =
      strBytes ("ZSEC") ++
        pack_be32 (jsonMetaBytes (strBytes ("2025"))
          (b64encode (List.replicate 16 0))).length ++
        jsonMetaBytes (strBytes ("2025")) (b64encode (List.replicate 16 0)) ++
        (cbcEncryptBlocks (fun b => b) (List.replicate 16 0)
          (toBlocks (_pad_data (List.replicate 10 7)))).flatten ∧
    (cbcEncryptBlocks (fun b => b) (List.replicate 16 0)
      (toBlocks (_pad_data (List.replicate 10 7)))).flatten.length % 16 = 0 ∧
    b64decode (b64encode (List.replicate 16 0)) = List.replicate 16 0 ∧
    ((List.replicate 10 7 : List ℕ).length = 10 →
      (cbcEncryptBlocks (fun b => b) (List.replicate 16 0)
        (toBlocks (_pad_data (List.replicate 10 7)))).flatten.length = 16) :=
  C5_container_layout (fun b => b) (fun _ h => h) (List.replicate 16 0)
    (strBytes ("2025")) (List.replicate 10 7) (by decide) (by decide)

/-! ### Helper lemmas: variance evaluation -/

theorem np_var_replicate (n : ℕ) (q : ℚ) : np_var (List.replicate n q) = 0 := by
  rcases Nat.eq_zero_or_pos n with h | h
  · subst h; simp [np_var]
  · have hn : ((n : ℚ)) ≠ 0 := Nat.cast_ne_zero.mpr (by omega)
    simp only [np_var, List.sum_replicate, List.length_replicate, nsmul_eq_mul]
    have hmean : ((n : ℚ)) * q / n = q := by field_simp
    rw [hmean]
    simp

theorem invalid_const_encoding : _is_valid_encoding (List.replicate 128 (3 / 10 : ℚ)) = false := by
  have h := np_var_replicate 128 (3 / 10 : ℚ)
  rw [_is_valid_encoding, h, decide_eq_true (show (0 : ℚ) < 1 / 1000 by norm_num)]
  simp only [Bool.not_true, Bool.and_false, Bool.false_and]

/-- the valid reference encoding used by witnesses: 64 entries `1/2` followed
by 64 entries `-1/2` (length 128, mean 0, variance `1/4`). -/
def validEnc : List ℚ := List.replicate 64 (1 / 2) ++ List.replicate 64 (-(1 / 2))

theorem validEnc_sum : validEnc.sum = 0 := by
  simp [validEnc, List.sum_replicate, nsmul_eq_mul]

theorem validEnc_var : np_var validEnc = 1 / 4 := by
  simp only [np_var, validEnc_sum, List.length_append, List.length_replicate, validEnc]
  norm_num [List.map_append, List.map_replicate, List.sum_append, List.sum_replicate,
    nsmul_eq_mul]

theorem validEnc_valid : _is_valid_encoding validEnc = true := by
  rw [_is_valid_encoding, validEnc_var]
  simp only [validEnc]
  simp [List.all_eq_true, List.any_eq_true, List.mem_append, List.mem_replicate]
  norm_num [abs_le]

/-! ### Claim theorems over `ℚ` -/

/-- C9 — encoding validity: `_is_valid_encoding` accepts exactly the encodings
of length 128 that are not all-zero, not all-one, have variance at least
`0.001` and no entry of magnitude above `5`; and the constant vector of 128
entries `0.3` is rejected (zero variance). -/
theorem C9_encoding_validity (e : List ℚ) :
    (_is_valid_encoding e = true ↔
      e.length = 128 ∧ ¬ (∀ x ∈ e, x = 0) ∧ ¬ (∀ x ∈ e, x = 1) ∧
        1 / 1000 ≤ np_var e ∧ ∀ x ∈ e, |x| ≤ 5) ∧
    _is_valid_encoding (List.replicate 128 (3 / 10)) = false := by
  constructor
  · simp [_is_valid_encoding, List.all_eq_true, List.any_eq_true, not_lt]
    tauto
  · exact invalid_const_encoding

/-- a trivial stand-in for the serialization primitive, used only to
instantiate counterexamples and witnesses at concrete inputs. -/
def tobytes0 : List ℚ → List ℕ := fun _ => []

/-- a trivial stand-in for the hash primitive, used only to instantiate
counterexamples and witnesses at concrete inputs. -/
def hash0 : List ℕ → List ℕ := fun l => l.take 32

/-- a trivial stand-in for the key-stretching primitive, used only to
instantiate counterexamples and witnesses at concrete inputs. -/
def kdf0 : List ℕ → List ℕ → List ℕ := fun key salt => (key ++ salt).take 32

/-- C3 counterexample: the constant `0.3` encoding fails the validator and the
identity string is empty, yet `generate_key_from_biometrics` still returns a
key — it does not fail on validator-rejected input as the claim requires. -/
theorem C3_counterexample :
    _is_valid_encoding (List.replicate 128 (3 / 10)) = false ∧
    (generate_key_from_biometrics tobytes0 hash0 kdf0
      (List.replicate 128 (3 / 10)) []).isSome = true :=
  ⟨invalid_const_encoding, rfl⟩

/-- C3 (amended) — `generate_key_from_biometrics` performs no validation at
all: for every encoding (valid or not) and every identity (including the
empty one) it returns `some` key, the PBKDF2 stretch of the chaos digest
with salt `sha256(email)[:16]`; no failure is ever signalled. -/
theorem C3_derivation_never_fails (tobytes : List ℚ → List ℕ)
    (sha256 : List ℕ → List ℕ) (pbkdf2_sha256 : List ℕ → List ℕ → List ℕ)
    (face_encoding : List ℚ) (email : List ℕ) :
    generate_key_from_biometrics tobytes sha256 pbkdf2_sha256 face_encoding email =
      some (pbkdf2_sha256
        (_apply_chaos_algorithm sha256 (tobytes face_encoding ++ email))
        ((sha256 email).take 16)) := rfl

/-- C4 — determinism of key derivation: the chaos mixing, the salt computation
and the key stretch are pure functions of the inputs, so two calls of
`generate_key_from_biometrics` on equal (valid) inputs return identical
keys. -/
theorem C4_key_derivation_deterministic (tobytes : List ℚ → List ℕ)
    (sha256 : List ℕ → List ℕ) (pbkdf2_sha256 : List ℕ → List ℕ → List ℕ)
    (e1 e2 : List ℚ) (i1 i2 : List ℕ)
    (hvalid : _is_valid_encoding e1 = true) (hne : i1 ≠ [])
    (he : e1 = e2) (hi : i1 = i2) :
    generate_key_from_biometrics tobytes sha256 pbkdf2_sha256 e1 i1 =
      generate_key_from_biometrics tobytes sha256 pbkdf2_sha256 e2 i2 := by
  subst he hi
  rfl

/-- C4 witness: determinism applied at the concrete valid reference encoding
and a non-empty identity. -/
theorem C4_witness :
    generate_key_from_biometrics tobytes0 hash0 kdf0 validEnc (strBytes ("alice")) =
      generate_key_from_biometrics tobytes0 hash0 kdf0 validEnc (strBytes ("alice")) :=
  C4_key_derivation_deterministic tobytes0 hash0 kdf0 validEnc validEnc
    (strBytes ("alice")) (strBytes ("alice")) validEnc_valid (by decide) rfl rfl

/-- C7 counterexample: the claim asserts a nonempty band of EAR values on
which the blink signal fails with a face detected; in fact no such EAR value
exists — `EAR < 0.2` and `EAR > 0.15` overlap, so the disjunction is a
tautology. -/
theorem C7_counterexample :
    ¬ ∃ left_ear right_ear : ℚ,
      blink_signal (detect_blink true left_ear right_ear) = false := by
  rintro ⟨l, r, h⟩
  simp only [blink_signal, detect_blink, if_pos, Bool.or_eq_false_iff,
    decide_eq_false_iff_not, not_lt] at h
  obtain ⟨h1, h2⟩ := h
  linarith

/-- C7 (amended) — with a face detected the blink signal passes for every
averaged eye-aspect-ratio: `EAR < 0.2` (blink detected) or `EAR > 0.15`
(eyes open) covers all values, so the supposed frozen-half-closed-eye band
is empty; with no face detected the signal fails (defaults `False`, `0.0`). -/
theorem C7_blink_signal_total (left_ear right_ear : ℚ) :
    blink_signal (detect_blink true left_ear right_ear) = true ∧
    blink_signal (detect_blink false left_ear right_ear) = false := by
  constructor
  · simp only [blink_signal, detect_blink, if_pos, Bool.or_eq_true, decide_eq_true_eq]
    rcases lt_or_le ((left_ear + right_ear) / 2) (1 / 5) with h | h
    · exact Or.inl h
    · exact Or.inr (by linarith)
  · norm_num [blink_signal, detect_blink]

/-- C8 — liveness scoring: each passing signal contributes exactly `0.25` to
the score and `1` to `checks_passed`; `liveness_passed` holds iff at least 2
signals pass or the score is at least `0.5`; in particular exactly 2 passing
signals give score `0.5` and a pass, exactly 1 gives score `0.25` and a
fail. -/
theorem C8_liveness_scoring (blink : BlinkData)
    (movement_detected is_real quality_sufficient brightness_ok : Bool) :
    (comprehensive_liveness_check blink movement_detected is_real quality_sufficient
        brightness_ok).liveness_score =
      ((if blink_signal blink then 1 else 0) + (if movement_detected then 1 else 0) +
        (if is_real then 1 else 0) +
        (if quality_sufficient && brightness_ok then 1 else 0) : ℚ) * (1 / 4) ∧
    (comprehensive_liveness_check blink movement_detected is_real quality_sufficient
        brightness_ok).checks_passed =
      (if blink_signal blink then 1 else 0) + (if movement_detected then 1 else 0) +
        (if is_real then 1 else 0) +
        (if quality_sufficient && brightness_ok then 1 else 0) ∧
    ((comprehensive_liveness_check blink movement_detected is_real quality_sufficient
        brightness_ok).liveness_passed = true ↔
      2 ≤ (comprehensive_liveness_check blink movement_detected is_real quality_sufficient
        brightness_ok).checks_passed ∨
      1 / 2 ≤ (comprehensive_liveness_check blink movement_detected is_real
        quality_sufficient brightness_ok).liveness_score) ∧
    ((comprehensive_liveness_check blink movement_detected is_real quality_sufficient
        brightness_ok).checks_passed = 2 →
      (comprehensive_liveness_check blink movement_detected is_real quality_sufficient
        brightness_ok).liveness_score = 1 / 2 ∧
      (comprehensive_liveness_check blink movement_detected is_real quality_sufficient
        brightness_ok).liveness_passed = true) ∧
    ((comprehensive_liveness_check blink movement_detected is_real quality_sufficient
        brightness_ok).checks_passed = 1 →
      (comprehensive_liveness_check blink movement_detected is_real quality_sufficient
        brightness_ok).liveness_score = 1 / 4 ∧
      (comprehensive_liveness_check blink movement_detected is_real quality_sufficient
        brightness_ok).liveness_passed = false) := by
  cases hbs : blink_signal blink <;>
    cases movement_detected <;> cases is_real <;>
    cases quality_sufficient <;> cases brightness_ok <;>
    simp [comprehensive_liveness_check, hbs] <;> norm_num

/-! ### Helper lemmas and data for the face-matching claim -/

theorem zipWith_sq_self_sum (l : List ℚ) :
    (List.zipWith (fun x y => (x - y) ^ 2) l l).sum = 0 := by
  induction l with
  | nil => rfl
  | cons x l ih => simp [List.zipWith_cons_cons, ih]

/-- a probe encoding: the valid reference encoding with its first entry moved
from `1/2` to `0`, at squared Euclidean distance `1/4` from it. -/
def probeEnc : List ℚ := 0 :: (List.replicate 63 (1 / 2) ++ List.replicate 64 (-(1 / 2)))

theorem validEnc_cons :
    validEnc = (1 / 2) :: (List.replicate 63 (1 / 2) ++ List.replicate 64 (-(1 / 2))) := by
  rw [validEnc, show (64 : ℕ) = 63 + 1 from rfl, List.replicate_succ, List.cons_append]

theorem probe_dist : face_distance_sq validEnc probeEnc = 1 / 4 := by
  rw [validEnc_cons, probeEnc, face_distance_sq, List.zipWith_cons_cons, List.sum_cons,
    zipWith_sq_self_sum]
  norm_num

theorem probeEnc_sum : probeEnc.sum = -(1 / 2) := by
  simp [probeEnc, List.sum_replicate, nsmul_eq_mul]

theorem probeEnc_length : probeEnc.length = 128 := by
  simp [probeEnc]

theorem probeEnc_var : np_var probeEnc = 16255 / 65536 := by
  rw [np_var, probeEnc_sum, probeEnc_length]
  simp only [probeEnc, List.map_cons, List.map_append, List.map_replicate, List.sum_cons,
    List.sum_append, List.sum_replicate, nsmul_eq_mul]
  norm_num

theorem probeEnc_valid : _is_valid_encoding probeEnc = true := by
  rw [_is_valid_encoding, probeEnc_var]
  simp only [probeEnc]
  simp [List.all_eq_true, List.any_eq_true, List.mem_append, List.mem_replicate,
    List.mem_cons]
  norm_num [abs_le]

/-- C6 — face-matching acceptance region: with `d` the Euclidean distance
between the encodings (given through its square, since every comparison in
the source is against a nonnegative threshold), `verify_face` rejects when
either encoding is invalid, rejects when `d < 0.1` (potential spoofing),
and otherwise accepts exactly when `d ≤ tolerance` and
`d ≤ 0.8 * tolerance`; in particular a distance strictly between `0.1` and
`0.8 * tolerance` matches and a distance above `tolerance` does not. -/
theorem C6_face_matching (stored current : List ℚ) (tolerance d : ℚ)
    (ht : 0 ≤ tolerance) (hd : 0 ≤ d)
    (hdist : d ^ 2 = face_distance_sq stored current) :
    ((_is_valid_encoding stored = false ∨ _is_valid_encoding current = false) →
      verify_face stored current tolerance = false) ∧
    (d < 1 / 10 → verify_face stored current tolerance = false) ∧
    (_is_valid_encoding stored = true → _is_valid_encoding current = true →
      1 / 10 ≤ d →
      (verify_face stored current tolerance = true ↔
        d ≤ tolerance ∧ d ≤ tolerance * (8 / 10))) ∧
    (tolerance < d → verify_face stored current tolerance = false) ∧
    (_is_valid_encoding stored = true → _is_valid_encoding current = true →
      1 / 10 < d → d < tolerance * (8 / 10) →
      verify_face stored current tolerance = true) := by
  have h08 : (0 : ℚ) ≤ tolerance * (8 / 10) := mul_nonneg ht (by norm_num)
  have e1 : (face_distance_sq stored current < (1 / 10 : ℚ) ^ 2) = (d < 1 / 10) := by
    rw [← hdist]
    apply propext
    constructor <;> intro h <;> nlinarith
  have e2 : (face_distance_sq stored current ≤ tolerance ^ 2) = (d ≤ tolerance) := by
    rw [← hdist]
    apply propext
    constructor <;> intro h <;> nlinarith
  have e3 : (face_distance_sq stored current > (tolerance * (8 / 10)) ^ 2) =
      (d > tolerance * (8 / 10)) := by
    rw [← hdist]
    apply propext
    constructor <;> intro h <;> nlinarith
  have hv : verify_face stored current tolerance =
      if d < 1 / 10 then false
      else if !(_is_valid_encoding stored) || !(_is_valid_encoding current) then false
      else if d ≤ tolerance ∧ tolerance * (8 / 10) < d then false
      else decide (d ≤ tolerance) := by
    simp only [verify_face, e1, e2, e3, Bool.and_eq_true, decide_eq_true_eq]
  refine ⟨?_, ?_, ?_, ?_, ?_⟩
  · intro h
    rw [hv]
    by_cases h1 : d < 1 / 10
    · rw [if_pos h1]
    · rw [if_neg h1, if_pos (by rcases h with h | h <;> simp [h])]
  · intro h1
    rw [hv, if_pos h1]
  · intro hs hc h110
    rw [hv, if_neg (not_lt.mpr h110), if_neg (by simp [hs, hc])]
    by_cases hcase : d ≤ tolerance ∧ tolerance * (8 / 10) < d
    · rw [if_pos hcase]
      simp only [Bool.false_eq_true, false_iff]
      rintro ⟨hle, h08⟩
      exact absurd hcase.2 (not_lt.mpr h08)
    · rw [if_neg hcase]
      simp only [decide_eq_true_eq]
      constructor
      · intro hle
        exact ⟨hle, not_lt.mp (not_and.mp hcase hle)⟩
      · exact fun h => h.1
  · intro hlt
    rw [hv]
    by_cases h1 : d < 1 / 10
    · rw [if_pos h1]
    · rw [if_neg h1]
      by_cases h2 : (!(_is_valid_encoding stored) || !(_is_valid_encoding current)) = true
      · rw [if_pos h2]
      · rw [if_neg h2, if_neg (fun hco => absurd hlt (not_lt.mpr hco.1))]
        simp only [decide_eq_false_iff_not]
        exact not_le.mpr hlt
  · intro hs hc h110 hband
    rw [hv, if_neg (not_lt.mpr (le_of_lt h110)), if_neg (by simp [hs, hc]),
      if_neg (fun hco => lt_asymm hband hco.2)]
    simp only [decide_eq_true_eq]
    nlinarith

/-- C6 witness: the acceptance conjunct applied at the two concrete valid
encodings at distance `1/2`, with tolerance `1`. -/
theorem C6_witness : verify_face validEnc probeEnc 1 = true :=
  (C6_face_matching validEnc probeEnc 1 (1 / 2) (by norm_num) (by norm_num)
      (by rw [probe_dist]; norm_num)).2.2.2.2 validEnc_valid probeEnc_valid
    (by norm_num) (by norm_num)

end ZS
